import Mathlib

/-!
Verification of the doc-analyzer core against its specification.

Strings are embedded as `List Char`.  The segmenter
(`src/src/app/api/upload/route.ts`), the chat orchestration route
(`src/src/app/api/chat/route.ts`) and the API client's failure
classification (`src/src/lib/api.ts`) are translated definition by
definition below; network effects are made explicit by passing the
outcome of each outbound call as a parameter.
-/

set_option maxRecDepth 100000

/-! ## Segmenter: whitespace normalization (upload route, lines 76-81) -/

/-- JavaScript's regex class `\s` (also the character set removed by
`String.prototype.trim`): ASCII whitespace, NBSP, and the Unicode
space separators plus BOM. -/
def isWs (c : Char) : Bool :=
  decide (c.toNat = 32 ∨ c.toNat = 9 ∨ c.toNat = 10 ∨ c.toNat = 13 ∨
    c.toNat = 11 ∨ c.toNat = 12 ∨ c.toNat = 0xa0 ∨ c.toNat = 0x1680 ∨
    (0x2000 ≤ c.toNat ∧ c.toNat ≤ 0x200a) ∨ c.toNat = 0x2028 ∨
    c.toNat = 0x2029 ∨ c.toNat = 0x202f ∨ c.toNat = 0x205f ∨
    c.toNat = 0x3000 ∨ c.toNat = 0xfeff)

/-- The step `.replace(/\r\n/g, "\n")`: each CRLF pair becomes a single LF,
scanning left to right without overlap. -/
def replCRLF : List Char → List Char
  | [] => []
  | [c] => [c]
  | c :: d :: rest =>
    if c == '\r' && d == '\n' then '\n' :: replCRLF rest
    else c :: replCRLF (d :: rest)

/-- The step `.replace(/\r/g, "\n")`. -/
def replCR (l : List Char) : List Char :=
  l.map (fun c => if c == '\r' then '\n' else c)

/-- The step `.replace(/\s+/g, " ")`: every maximal run of whitespace (including
newlines, since `\s` matches them) becomes one space. -/
def collapseWs : List Char → List Char
  | [] => []
  | [c] => if isWs c then [' '] else [c]
  | c :: d :: rest =>
    if isWs c && isWs d then collapseWs (d :: rest)
    else if isWs c then ' ' :: collapseWs (d :: rest)
    else c :: collapseWs (d :: rest)

/-- The step `.replace(/\n+/g, "\n")`: every maximal run of LFs becomes one LF. -/
def collapseNl : List Char → List Char
  | [] => []
  | [c] => if c == '\n' then ['\n'] else [c]
  | c :: d :: rest =>
    if c == '\n' && d == '\n' then collapseNl (d :: rest)
    else c :: collapseNl (d :: rest)

/-- The JavaScript `String.prototype.trim()`: drop whitespace from both ends. -/
def jsTrim (l : List Char) : List Char :=
  ((l.dropWhile isWs).reverse.dropWhile isWs).reverse

/-- The whole normalization chain applied to the decoded upload text
(upload route, lines 76-81): CRLF to LF, CR to LF, whitespace runs to a
single space, LF runs to a single LF, trim. -/
def cleanText (raw : List Char) : List Char :=
  jsTrim (collapseNl (collapseWs (replCR (replCRLF raw))))

/-! ## Segmenter: chunking (upload route, lines 129-208) -/

/-- Index of the last `'\n'` in a list, if any. -/
def lastNlIdx : List Char → Option Nat
  | [] => none
  | c :: rest =>
    match lastNlIdx rest with
    | some k => some (k + 1)
    | none => if c == '\n' then some 0 else none

/-- Worker for `text.split(/\n\s*\n/)`.  A match is an LF followed by
the longest whitespace run whose final character is again an LF
(`\s*` is greedy and backtracks to leave a closing LF).  `fuel` bounds
the recursion; it only needs to be at least the input length. -/
def splitParasGo : Nat → List Char → List Char → List (List Char)
  | _, acc, [] => [acc.reverse]
  | 0, acc, l => [acc.reverse ++ l]
  | fuel + 1, acc, c :: rest =>
    if c == '\n' then
      match lastNlIdx (rest.takeWhile isWs) with
      | some k => acc.reverse :: splitParasGo fuel [] (rest.drop (k + 1))
      | none => splitParasGo fuel (c :: acc) rest
    else splitParasGo fuel (c :: acc) rest

/-- The split `text.split(/\n\s*\n/)` (upload route, line 140). -/
def splitParas (l : List Char) : List (List Char) :=
  splitParasGo l.length [] l

/-- The sentence-boundary class of `text.split(/[.!?]+/)`. -/
def isSentDelim (c : Char) : Bool :=
  c == '.' || c == '!' || c == '?'

/-- Splitting on maximal runs of delimiter characters, as
`String.prototype.split` with a `/[...]+/` regex does: pieces between
consecutive runs, including empty pieces at the ends. -/
def splitRunsGo (delim : Char → Bool) (acc : List Char) (inRun : Bool) :
    List Char → List (List Char)
  | [] => [acc.reverse]
  | c :: rest =>
    if delim c then
      if inRun then splitRunsGo delim acc true rest
      else acc.reverse :: splitRunsGo delim [] true rest
    else splitRunsGo delim (c :: acc) false rest

/-- The split `text.split(/[.!?]+/)` (upload route, line 173). -/
def splitSentDelims (l : List Char) : List (List Char) :=
  splitRunsGo isSentDelim [] false l

/-- The sentence packing loop of `splitBySentences` (lines 177-190):
returns the accumulated pushed chunks and the final `currentChunk`. -/
def sentLoopGo (max : Nat) (chunks : List (List Char)) (current : List Char) :
    List (List Char) → List (List Char) × List Char
  | [] => (chunks, current)
  | s :: rest =>
    let clean := jsTrim s
    if clean.isEmpty then sentLoopGo max chunks current rest
    else
      let potential := current ++ (if current.isEmpty then [] else ['.', ' ']) ++ clean ++ ['.']
      if max < potential.length ∧ 0 < current.length then
        sentLoopGo max (chunks ++ [current ++ ['.']]) clean rest
      else
        sentLoopGo max chunks potential.dropLast rest

/-- Worker for the hard-split loop `for (i = 0; i < len; i += max)
slice(i, i + max)` (lines 201-203).  `fuel` bounds the recursion; any
value at least the input length is enough when `max ≥ 1` (the source
loop would not terminate at all for `max = 0`). -/
def hardSplitGo (max : Nat) : Nat → List Char → List (List Char)
  | _, [] => []
  | 0, _ => []
  | fuel + 1, c :: rest =>
    (c :: rest).take max :: hardSplitGo max fuel ((c :: rest).drop max)

/-- Fixed-size slices of an over-long chunk (lines 201-203). -/
def hardSplit (max : Nat) (chunk : List Char) : List (List Char) :=
  hardSplitGo max chunk.length chunk

/-- The function `splitBySentences` (upload route, lines 171-208). -/
def splitBySentences (text : List Char) (maxChunkSize : Nat) : List (List Char) :=
  let sentences := (splitSentDelims text).filter (fun s => decide (0 < (jsTrim s).length))
  let r := sentLoopGo maxChunkSize [] [] sentences
  let chunks := if (jsTrim r.2).isEmpty then r.1 else r.1 ++ [r.2 ++ ['.']]
  let finalChunks := chunks.flatMap
    (fun chunk => if chunk.length ≤ maxChunkSize then [chunk] else hardSplit maxChunkSize chunk)
  finalChunks.filter (fun chunk => decide (20 ≤ chunk.length))

/-- The paragraph packing loop of `createTextChunks` (lines 144-157). -/
def paraLoopGo (max : Nat) (chunks : List (List Char)) (current : List Char) :
    List (List Char) → List (List Char) × List Char
  | [] => (chunks, current)
  | p :: rest =>
    let t := jsTrim p
    if max < current.length + t.length ∧ 0 < current.length then
      paraLoopGo max (chunks ++ [jsTrim current]) t rest
    else
      paraLoopGo max chunks (current ++ (if 0 < current.length then ['\n', '\n'] else []) ++ t) rest

/-- The function `createTextChunks` (upload route, lines 129-169). -/
def createTextChunks (text : List Char) (maxChunkSize : Nat) : List (List Char) :=
  if text.length = 0 then []
  else if text.length ≤ maxChunkSize then [text]
  else
    let paragraphs := (splitParas text).filter (fun p => decide (0 < (jsTrim p).length))
    let r := paraLoopGo maxChunkSize [] [] paragraphs
    let chunks := if (jsTrim r.2).isEmpty then r.1 else r.1 ++ [jsTrim r.2]
    if chunks.length = 1 ∧ maxChunkSize < chunks.headI.length then
      splitBySentences text maxChunkSize
    else
      chunks.filter (fun chunk => decide (20 ≤ chunk.length))

/-- The upload pipeline (upload route POST, lines 65-98): normalize the
decoded text, reject it (`none`) when the cleaned length is below 10
(this also covers the earlier empty-after-trim rejection), otherwise
segment with `maxChunkSize = 500`. -/
def uploadChunks (raw : List Char) : Option (List (List Char)) :=
  let cleaned := cleanText raw
  if cleaned.length < 10 then none else some (createTextChunks cleaned 500)

/-! ## Chat orchestration route (`src/src/app/api/chat/route.ts`) -/

/-- The check `Response.ok`: status in the 2xx range. -/
def statusOk (s : Nat) : Prop := 200 ≤ s ∧ s ≤ 299

instance (s : Nat) : Decidable (statusOk s) :=
  inferInstanceAs (Decidable (200 ≤ s ∧ s ≤ 299))

/-- The parsed body of the Python `/health` probe, as far as the route
inspects it (`healthData.huggingface_available`). -/
structure HealthBody where
  huggingface_available : Bool
deriving DecidableEq

/-- Outcome of the health probe `fetch` (route lines 20-43): the fetch
can reject (connection failure) or be aborted by the 5s
`AbortSignal.timeout`, both landing in the same `catch`; otherwise a
response arrives with a status and a body that `json()` either parses
(`some`) or throws on (`none`, caught by the same `catch`). -/
inductive HealthOutcome
  | connError
  | timeoutErr
  | response (status : Nat) (body : Option HealthBody)
deriving DecidableEq

/-- The parsed body of the Python `/chat` call, as far as the route
uses it. -/
structure ChatBody where
  answer : List Char
deriving DecidableEq

/-- Outcome of the inference `fetch` (route lines 80-108):
`abortErr` is a rejection named `AbortError` (45s deadline), `otherErr`
any other rejection; a received response carries a status and a body
that parses (`some`) or not (`none`). -/
inductive ChatCallOutcome
  | abortErr
  | otherErr
  | response (status : Nat) (body : Option ChatBody)
deriving DecidableEq

/-- Which `NextResponse.json` branch of the chat route produced the
reply. -/
inductive RouteKind
  | answerOk
  | missingInput
  | cannotConnect
  | notAvailable
  | misconfigured
  | aiFailed
  | aiTimeout
  | aiError
deriving DecidableEq

/-- An HTTP-style reply of the chat route: status code plus branch. -/
structure RouteResponse where
  status : Nat
  kind : RouteKind
deriving DecidableEq

/-- The chat route `POST` handler (lines 5-152), with the two network
calls abstracted into parameters.  Returns the reply together with the
number of inference calls made (the `/chat` fetch is only reached on
the fully successful health path). -/
def chatRoute (question documentText : List Char) (health : HealthOutcome)
    (chat : ChatCallOutcome) : RouteResponse × Nat :=
  if question.isEmpty ∨ documentText.isEmpty then (⟨400, .missingInput⟩, 0)
  else
    match health with
    | .connError => (⟨503, .cannotConnect⟩, 0)
    | .timeoutErr => (⟨503, .cannotConnect⟩, 0)
    | .response s body =>
      if ¬ statusOk s then (⟨503, .notAvailable⟩, 0)
      else
        match body with
        | none => (⟨503, .cannotConnect⟩, 0)
        | some hb =>
          if !hb.huggingface_available then (⟨503, .misconfigured⟩, 0)
          else
            match chat with
            | .abortErr => (⟨408, .aiTimeout⟩, 1)
            | .otherErr => (⟨500, .aiError⟩, 1)
            | .response cs cbody =>
              if ¬ statusOk cs then (⟨cs, .aiFailed⟩, 1)
              else
                match cbody with
                | none => (⟨500, .aiError⟩, 1)
                | some _ => (⟨200, .answerOk⟩, 1)

/-! ## Request executor (`src/src/lib/api.ts`, `ApiClient.request`) -/

/-- The response data the client ends up holding: a parsed JSON value
(abstracted to a numeric token) or a raw text body. -/
inductive BodyData
  | jsonVal (v : Nat)
  | textVal (t : List Char)
deriving DecidableEq

/-- Outcome of the `fetch` inside `ApiClient.request` (api.ts lines
38-68): the abort timer fired (`AbortError`), the connection failed
(`TypeError`), some other rejection, or a response with a status, a
content type that may or may not declare JSON, a JSON parse result
(`none` when `response.json()` throws) and the raw text body. -/
inductive FetchBehavior
  | abortErr
  | typeErr
  | otherErr
  | response (status : Nat) (contentTypeJson : Bool) (jsonParsed : Option Nat)
      (textBody : List Char)
deriving DecidableEq

/-- The `code` of the typed error `ApiClient.request` throws (api.ts
lines 77-142).  `malformed` appears in the spec's taxonomy
(`MalformedResponseFailure`) and is declared here so the statement that
the client never produces it can be written; `request` below never
returns it. -/
inductive FailCode
  | timeout
  | networkError
  | upstream (status : Nat) (data : BodyData)
  | unknown
  | malformed
deriving DecidableEq

/-- Result of one executor call: resolves with data and status, or
throws a typed error. -/
inductive ReqOutcome
  | success (data : BodyData) (status : Nat)
  | failure (code : FailCode)
deriving DecidableEq

/-- The body-reading step (api.ts lines 56-68): JSON content type with
a successful parse yields the JSON value; a parse failure falls back to
the text body, as does a non-JSON content type. -/
def responseData (contentTypeJson : Bool) (jsonParsed : Option Nat)
    (textBody : List Char) : BodyData :=
  if contentTypeJson then
    match jsonParsed with
    | some v => .jsonVal v
    | none => .textVal textBody
  else .textVal textBody

/-- The method `ApiClient.request` (api.ts lines 34-144): a non-2xx status throws
an error carrying status and data, rethrown unchanged by the
`"response" in error` branch; the catch block classifies `AbortError`
as timeout, `TypeError` as network error, anything else as unknown. -/
def request (f : FetchBehavior) : ReqOutcome :=
  match f with
  | .abortErr => .failure .timeout
  | .typeErr => .failure .networkError
  | .otherErr => .failure .unknown
  | .response s ct p tb =>
    let data := responseData ct p tb
    if statusOk s then .success data s else .failure (.upstream s data)

/-! ## Backend model-fallback chain (modelled from the spec)

The ordered model chain is executed by the Python backend
(`python-api/models.py`), which is not in the source tree; only its
caller `src/src/app/api/chat/route.ts` is.  The definitions below are
modelled from spec §4.4. -/

/-- Modelled from the spec: the failure kinds §4.4 lets a model attempt
produce (`python-api/models.py` is missing from the tree). -/
inductive AttemptFailure
  | timeoutF
  | upstreamF (status : Nat)
  | networkF
deriving DecidableEq

/-- Modelled from the spec: outcome of one model attempt. -/
inductive AttemptOutcome
  | success (answer : List Char) (processingTime : Nat)
  | failure (kind : AttemptFailure)
deriving DecidableEq

/-- Modelled from the spec: `BackendAttempt = { modelId, outcome }`
(spec §3). -/
structure BackendAttempt where
  modelId : Nat
  outcome : AttemptOutcome
deriving DecidableEq

/-- Modelled from the spec: the orchestrator's terminal state for one
question — `Answered` with the model used and the attempt history, or
`Exhausted` with the full ordered attempt history (spec §4.4). -/
inductive OrchOutcome
  | answered (answer : List Char) (modelUsed : Nat) (attempts : List BackendAttempt)
  | exhausted (attempts : List BackendAttempt)
deriving DecidableEq

/-- Modelled from the spec: walk the priority-ordered model list,
recording one `BackendAttempt` per call; stop at the first success,
advance on every failure, and aggregate all attempts on exhaustion
(spec §4.4 steps 3-4). -/
def runChainGo (call : Nat → AttemptOutcome) (acc : List BackendAttempt) :
    List Nat → OrchOutcome
  | [] => .exhausted acc.reverse
  | m :: rest =>
    match call m with
    | .success a t => .answered a m (acc.reverse ++ [⟨m, .success a t⟩])
    | .failure k => runChainGo call (⟨m, .failure k⟩ :: acc) rest

/-- Modelled from the spec: the whole fallback chain for one question. -/
def runFallbackChain (models : List Nat) (call : Nat → AttemptOutcome) : OrchOutcome :=
  runChainGo call [] models

/-- The failing input of the spec's paragraph-packing scenario: three
300-character paragraphs separated by blank lines. -/
def c6raw : List Char :=
  List.replicate 300 'a' ++ ['\n', '\n'] ++ List.replicate 300 'a' ++
    ['\n', '\n'] ++ List.replicate 300 'a'

/-! ## Helper lemmas: normalization -/

lemma head?_dropWhile_not (p : Char → Bool) :
    ∀ (l : List Char) (x : Char), (l.dropWhile p).head? = some x → p x = false := by
  intro l
  induction l with
  | nil => simp [List.dropWhile]
  | cons a t ih =>
    intro x h
    rw [List.dropWhile_cons] at h
    by_cases hp : p a = true
    · rw [if_pos hp] at h
      exact ih x h
    · rw [if_neg hp] at h
      simp only [List.head?_cons, Option.some.injEq] at h
      subst h
      simp only [Bool.not_eq_true] at hp
      exact hp

lemma dropWhile_eq_self_of_head (p : Char → Bool) (l : List Char)
    (h : ∀ x, l.head? = some x → p x = false) : l.dropWhile p = l := by
  cases l with
  | nil => rfl
  | cons a t =>
    rw [List.dropWhile_cons, if_neg (by simp [h a rfl])]

lemma jsTrim_idem (l : List Char) : jsTrim (jsTrim l) = jsTrim l := by
  unfold jsTrim
  have h1 : ((l.dropWhile isWs).reverse.dropWhile isWs).reverse.dropWhile isWs =
      ((l.dropWhile isWs).reverse.dropWhile isWs).reverse := by
    apply dropWhile_eq_self_of_head
    intro x hx
    rw [List.head?_reverse] at hx
    have hBne : (l.dropWhile isWs).reverse.dropWhile isWs ≠ [] := by
      intro hnil
      rw [hnil] at hx
      simp at hx
    obtain ⟨t, ht⟩ := List.dropWhile_suffix (l := (l.dropWhile isWs).reverse) (p := isWs)
    have h2 : ((l.dropWhile isWs).reverse).getLast? = some x := by
      rw [← ht, List.getLast?_append_of_ne_nil _ hBne]
      exact hx
    rw [List.getLast?_reverse] at h2
    exact head?_dropWhile_not isWs l x h2
  rw [h1, List.reverse_reverse, List.dropWhile_idempotent]

lemma mem_collapseWs_ws : ∀ (l : List Char), ∀ c ∈ collapseWs l, isWs c = true → c = ' ' := by
  intro l
  induction l with
  | nil => simp [collapseWs]
  | cons a t ih =>
    cases t with
    | nil =>
      intro c hc hw
      by_cases h : isWs a = true
      · simp [collapseWs, h] at hc
        exact hc
      · simp [collapseWs, h] at hc
        subst hc
        exact absurd hw (by simp [h])
    | cons b t' =>
      intro c hc hw
      by_cases h1 : isWs a = true <;> by_cases h2 : isWs b = true
      · simp only [collapseWs, h1, h2, Bool.and_self, if_pos] at hc
        exact ih c hc hw
      · simp only [collapseWs, h1, h2, Bool.and_false, Bool.false_eq_true,
          if_false, if_pos, List.mem_cons] at hc
        rcases hc with rfl | hc
        · rfl
        · exact ih c hc hw
      · simp only [collapseWs, h1, h2, Bool.false_and, Bool.false_eq_true,
          if_false, List.mem_cons] at hc
        rcases hc with rfl | hc
        · exact absurd hw (by simp [h1])
        · exact ih c hc hw
      · simp only [collapseWs, h1, h2, Bool.false_and, Bool.false_eq_true,
          if_false, List.mem_cons] at hc
        rcases hc with rfl | hc
        · exact absurd hw (by simp [h1])
        · exact ih c hc hw

lemma noNl_collapseWs (l : List Char) : '\n' ∉ collapseWs l := by
  intro h
  have := mem_collapseWs_ws l '\n' h (by decide)
  exact absurd this (by decide)

lemma collapseNl_eq_self : ∀ (l : List Char), '\n' ∉ l → collapseNl l = l := by
  intro l
  induction l with
  | nil => intro _; rfl
  | cons a t ih =>
    intro h
    have ha : ¬ (a == '\n') = true := by
      simp only [beq_iff_eq]
      intro e
      exact h (e ▸ List.mem_cons_self a t)
    cases t with
    | nil => simp [collapseNl, ha]
    | cons b t' =>
      have hb : collapseNl (b :: t') = b :: t' :=
        ih (fun hm => h (List.mem_cons_of_mem _ hm))
      simp only [collapseNl, ha, Bool.false_and, Bool.false_eq_true, if_false]
      rw [hb]

lemma jsTrim_subset (l : List Char) : ∀ c ∈ jsTrim l, c ∈ l := by
  intro c hc
  unfold jsTrim at hc
  rw [List.mem_reverse] at hc
  have h1 : c ∈ (l.dropWhile isWs).reverse :=
    (List.dropWhile_suffix (p := isWs)).subset hc
  rw [List.mem_reverse] at h1
  exact (List.dropWhile_suffix (p := isWs)).subset h1

lemma noNl_cleanText (raw : List Char) : '\n' ∉ cleanText raw := by
  intro h
  unfold cleanText at h
  have h1 := jsTrim_subset _ _ h
  rw [collapseNl_eq_self _ (noNl_collapseWs _)] at h1
  exact noNl_collapseWs _ h1

lemma jsTrim_cleanText (raw : List Char) : jsTrim (cleanText raw) = cleanText raw := by
  unfold cleanText
  exact jsTrim_idem _

/-! ## Helper lemmas: segmentation -/

lemma splitParasGo_noNl : ∀ (fuel : Nat) (acc l : List Char), '\n' ∉ l →
    splitParasGo fuel acc l = [acc.reverse ++ l] := by
  intro fuel
  induction fuel with
  | zero =>
    intro acc l _
    cases l with
    | nil => simp [splitParasGo]
    | cons c rest => simp [splitParasGo]
  | succ n ih =>
    intro acc l h
    cases l with
    | nil => simp [splitParasGo]
    | cons c rest =>
      have hc : ¬ (c == '\n') = true := by
        simp only [beq_iff_eq]
        intro e
        exact h (e ▸ List.mem_cons_self c rest)
      simp only [splitParasGo, hc, Bool.false_eq_true, if_false]
      rw [ih (c :: acc) rest (fun hm => h (List.mem_cons_of_mem _ hm))]
      simp

lemma splitParas_noNl (l : List Char) (h : '\n' ∉ l) : splitParas l = [l] := by
  unfold splitParas
  rw [splitParasGo_noNl _ _ _ h]
  simp

lemma createTextChunks_small (text : List Char) (maxSize : Nat) (hne : text.length ≠ 0)
    (h : text.length ≤ maxSize) : createTextChunks text maxSize = [text] := by
  unfold createTextChunks
  rw [if_neg hne, if_pos h]

lemma createTextChunks_long (raw : List Char) (h10 : 10 ≤ (cleanText raw).length)
    (h : 500 < (cleanText raw).length) :
    createTextChunks (cleanText raw) 500 = splitBySentences (cleanText raw) 500 := by
  have htrim : jsTrim (cleanText raw) = cleanText raw := jsTrim_cleanText raw
  have hpar : splitParas (cleanText raw) = [cleanText raw] :=
    splitParas_noNl _ (noNl_cleanText raw)
  have hfil : ((splitParas (cleanText raw)).filter
      (fun p => decide (0 < (jsTrim p).length))) = [cleanText raw] := by
    rw [hpar, List.filter_cons]
    simp only [htrim]
    rw [if_pos (by simp; omega)]
    rfl
  have hloop : paraLoopGo 500 [] [] [cleanText raw] = ([], cleanText raw) := by
    simp [paraLoopGo, htrim]
  have hemp : (cleanText raw).isEmpty = false := by
    rw [← Bool.not_eq_true, List.isEmpty_iff]
    intro e
    rw [e] at h10
    simp at h10
  unfold createTextChunks
  rw [if_neg (by omega), if_neg (by omega)]
  simp only [hfil, hloop, htrim, hemp, Bool.false_eq_true, if_false]
  rw [if_pos (by simp; omega)]

lemma mem_hardSplitGo_le (max : Nat) : ∀ (fuel : Nat) (l : List Char),
    ∀ ch ∈ hardSplitGo max fuel l, ch.length ≤ max := by
  intro fuel
  induction fuel with
  | zero =>
    intro l ch hch
    cases l <;> simp [hardSplitGo] at hch
  | succ n ih =>
    intro l ch hch
    cases l with
    | nil => simp [hardSplitGo] at hch
    | cons a t =>
      simp only [hardSplitGo, List.mem_cons] at hch
      rcases hch with rfl | h
      · exact List.length_take_le _ _
      · exact ih _ ch h

lemma mem_splitBySentences_le {t : List Char} {max : Nat} :
    ∀ ch ∈ splitBySentences t max, ch.length ≤ max := by
  intro ch hch
  unfold splitBySentences at hch
  have h1 := (List.mem_filter.mp hch).1
  rw [List.mem_flatMap] at h1
  obtain ⟨chunk, _, hmem⟩ := h1
  by_cases hle : chunk.length ≤ max
  · rw [if_pos hle] at hmem
    simp at hmem
    subst hmem
    exact hle
  · rw [if_neg hle] at hmem
    exact mem_hardSplitGo_le max _ _ ch hmem

lemma mem_splitBySentences_ge20 {t : List Char} {max : Nat} :
    ∀ ch ∈ splitBySentences t max, 20 ≤ ch.length := by
  intro ch hch
  unfold splitBySentences at hch
  have h2 := (List.mem_filter.mp hch).2
  simpa using h2

lemma hardSplitGo_ne_nil (max : Nat) (fuel : Nat) (l : List Char)
    (hl : l ≠ []) (hf : 0 < fuel) : hardSplitGo max fuel l ≠ [] := by
  cases l with
  | nil => exact absurd rfl hl
  | cons a t =>
    cases fuel with
    | zero => omega
    | succ n => simp [hardSplitGo]

lemma hardSplitGo_dropLast (max : Nat) (hmax : 0 < max) :
    ∀ (fuel : Nat) (l : List Char), l.length ≤ fuel →
      ∀ ch ∈ (hardSplitGo max fuel l).dropLast, ch.length = max := by
  intro fuel
  induction fuel with
  | zero =>
    intro l hl ch hch
    have : l = [] := List.length_eq_zero.mp (Nat.le_zero.mp hl)
    subst this
    simp [hardSplitGo] at hch
  | succ n ih =>
    intro l hl ch hch
    cases l with
    | nil => simp [hardSplitGo] at hch
    | cons a t =>
      simp only [hardSplitGo] at hch
      by_cases hrest : (a :: t).drop max = []
      · rw [hrest] at hch
        have hnil : hardSplitGo max n ([] : List Char) = [] := by
          cases n <;> simp [hardSplitGo]
        rw [hnil] at hch
        simp at hch
      · have hlen : max < (a :: t).length := by
          by_contra hle
          push_neg at hle
          exact hrest (List.drop_eq_nil_of_le hle)
        have hn : 0 < n := by
          simp only [List.length_cons] at hl hlen
          omega
        have hne : hardSplitGo max n ((a :: t).drop max) ≠ [] :=
          hardSplitGo_ne_nil max n _ hrest hn
        rw [List.dropLast_cons_of_ne_nil hne] at hch
        rcases List.mem_cons.mp hch with rfl | h
        · rw [List.length_take]
          omega
        · refine ih _ ?_ ch h
          rw [List.length_drop]
          simp only [List.length_cons] at hl ⊢
          omega

lemma hardSplit_dropLast (max : Nat) (hmax : 0 < max) (l : List Char) :
    ∀ ch ∈ (hardSplit max l).dropLast, ch.length = max :=
  hardSplitGo_dropLast max hmax l.length l le_rfl

/-! ## Helper lemmas: orchestration -/

lemma runChainGo_all_timeout (call : Nat → AttemptOutcome) :
    ∀ (ms : List Nat) (acc : List BackendAttempt),
      (∀ m ∈ ms, call m = .failure .timeoutF) →
      runChainGo call acc ms =
        .exhausted (acc.reverse ++ ms.map (fun m => ⟨m, .failure .timeoutF⟩)) := by
  intro ms
  induction ms with
  | nil =>
    intro acc _
    simp [runChainGo]
  | cons m rest ih =>
    intro acc h
    have hm := h m (List.mem_cons_self m rest)
    simp only [runChainGo, hm]
    rw [ih _ (fun x hx => h x (List.mem_cons_of_mem _ hx))]
    simp

/-! ## Claim theorems -/

/-- Claim C1 counterexample: the input of 501 letters is accepted
(normalized length 501), but segmentation hard-slices the
period-appended 502-character sentence into a 500-character piece and a
2-character piece, and the 20-character floor then drops the tail — the
concatenated stripped chunks are 500 letters while the normalized
text's non-whitespace content is 501 letters, so a character is lost. -/
theorem c1_preservation_cx :
    (uploadChunks (List.replicate 501 'a')).isSome = true ∧
    ((uploadChunks (List.replicate 501 'a')).getD []).flatten.filter (fun c => !(isWs c)) ≠
      (cleanText (List.replicate 501 'a')).filter (fun c => !(isWs c)) := by
  decide

/-- Claim C1, amended: for accepted inputs whose normalized length is
at most maxChunkSize = 500, segmentation returns the normalized text as
the single chunk, so the concatenated stripped chunks reproduce exactly
its non-whitespace content; for longer inputs the sentence fallback can
lose or insert characters (see the counterexample). -/
theorem c1_preservation_small (raw : List Char) (h10 : 10 ≤ (cleanText raw).length)
    (h500 : (cleanText raw).length ≤ 500) :
    (createTextChunks (cleanText raw) 500).flatten.filter (fun c => !(isWs c)) =
      (cleanText raw).filter (fun c => !(isWs c)) := by
  rw [createTextChunks_small _ _ (by omega) h500]
  simp

/-- Witness for the amended claim C1 at the concrete input
"hello world". -/
theorem c1_preservation_small_witness :
    (createTextChunks (cleanText "hello world".toList) 500).flatten.filter (fun c => !(isWs c)) =
      (cleanText "hello world".toList).filter (fun c => !(isWs c)) :=
  c1_preservation_small _ (by decide) (by decide)

/-- Claim C2: whenever the health probe fails — the fetch rejects with
a connection error, the 5-second abort fires, or a non-2xx status
arrives — the chat route replies 503 through one of its two
backend-unavailable branches and performs zero inference calls; the
model chain is never attempted. -/
theorem c2_health_fail_short_circuit (q d : List Char) (h : HealthOutcome)
    (c : ChatCallOutcome) (hq : q ≠ []) (hd : d ≠ [])
    (hfail : h = .connError ∨ h = .timeoutErr ∨
      ∃ s b, h = .response s b ∧ ¬ statusOk s) :
    (chatRoute q d h c).1.status = 503 ∧
    ((chatRoute q d h c).1.kind = .cannotConnect ∨
      (chatRoute q d h c).1.kind = .notAvailable) ∧
    (chatRoute q d h c).2 = 0 := by
  have hq' : q.isEmpty = false := by
    rw [← Bool.not_eq_true, List.isEmpty_iff]
    exact hq
  have hd' : d.isEmpty = false := by
    rw [← Bool.not_eq_true, List.isEmpty_iff]
    exact hd
  rcases hfail with rfl | rfl | ⟨s, b, rfl, hs⟩
  · simp [chatRoute, hq', hd']
  · simp [chatRoute, hq', hd']
  · simp [chatRoute, hq', hd', hs]

/-- Witness for claim C2 at a concrete request with a connection
failure on the health probe. -/
theorem c2_health_fail_short_circuit_witness :
    (chatRoute ['h', 'i'] ['d'] .connError .abortErr).1.status = 503 ∧
    ((chatRoute ['h', 'i'] ['d'] .connError .abortErr).1.kind = .cannotConnect ∨
      (chatRoute ['h', 'i'] ['d'] .connError .abortErr).1.kind = .notAvailable) ∧
    (chatRoute ['h', 'i'] ['d'] .connError .abortErr).2 = 0 :=
  c2_health_fail_short_circuit _ _ _ _ (by decide) (by decide) (Or.inl rfl)

/-- Claim C3 (fallback chain modelled from spec §4.4; the Python
backend holding it is not in the tree): if every model of the chain
fails with a timeout, the orchestrator ends `Exhausted` with exactly
one recorded attempt per model, in chain order, and the last recorded
outcome is the timeout failure kind. -/
theorem c3_chain_all_timeouts (models : List Nat) (call : Nat → AttemptOutcome)
    (hne : models ≠ []) (h : ∀ m ∈ models, call m = .failure .timeoutF) :
    runFallbackChain models call =
      .exhausted (models.map (fun m => ⟨m, .failure .timeoutF⟩)) ∧
    (models.map (fun m => (⟨m, .failure .timeoutF⟩ : BackendAttempt))).length =
      models.length ∧
    ((models.map (fun m => (⟨m, .failure .timeoutF⟩ : BackendAttempt))).getLast?).map
      BackendAttempt.outcome = some (.failure .timeoutF) := by
  refine ⟨?_, by simp, ?_⟩
  · unfold runFallbackChain
    rw [runChainGo_all_timeout call models [] h]
    simp
  · obtain ⟨x, hx⟩ := Option.isSome_iff_exists.mp (List.getLast?_isSome.mpr hne)
    rw [List.getLast?_map, hx]
    simp

/-- Witness for claim C3 at a concrete two-model chain where every
call times out. -/
theorem c3_chain_all_timeouts_witness :
    runFallbackChain [0, 1] (fun _ => .failure .timeoutF) =
      .exhausted ([0, 1].map (fun m => ⟨m, .failure .timeoutF⟩)) ∧
    (([0, 1] : List Nat).map
      (fun m => (⟨m, .failure .timeoutF⟩ : BackendAttempt))).length = ([0, 1] : List Nat).length ∧
    ((([0, 1] : List Nat).map
      (fun m => (⟨m, .failure .timeoutF⟩ : BackendAttempt))).getLast?).map
      BackendAttempt.outcome = some (.failure .timeoutF) :=
  c3_chain_all_timeouts [0, 1] _ (by decide) (fun _ _ => rfl)

/-- Claim C4: on the upload pipeline every produced chunk is at most
maxChunkSize = 500 characters long, and in a hard split of an over-long
chunk every slice except possibly the last is exactly 500 characters. -/
theorem c4_chunk_size_bound (raw l : List Char) (h10 : 10 ≤ (cleanText raw).length) :
    (createTextChunks (cleanText raw) 500).all (fun ch => decide (ch.length ≤ 500)) = true ∧
    ((hardSplit 500 l).dropLast).all (fun ch => decide (ch.length = 500)) = true := by
  constructor
  · rw [List.all_eq_true]
    intro ch hch
    rw [decide_eq_true_iff]
    by_cases h : (cleanText raw).length ≤ 500
    · rw [createTextChunks_small _ _ (by omega) h] at hch
      simp at hch
      subst hch
      exact h
    · rw [createTextChunks_long raw h10 (by omega)] at hch
      exact mem_splitBySentences_le ch hch
  · rw [List.all_eq_true]
    intro ch hch
    rw [decide_eq_true_iff]
    exact hardSplit_dropLast 500 (by omega) l ch hch

/-- Witness for claim C4: a 501-letter document and a 1001-character
hard-split input. -/
theorem c4_chunk_size_bound_witness :
    (createTextChunks (cleanText (List.replicate 501 'a')) 500).all
      (fun ch => decide (ch.length ≤ 500)) = true ∧
    ((hardSplit 500 (List.replicate 1001 'b')).dropLast).all
      (fun ch => decide (ch.length = 500)) = true :=
  c4_chunk_size_bound _ _ (by decide)

/-- Claim C5: the normalized text contains no newline (the `\s+` to
space collapse runs before the `\n+` collapse), so the blank-line
paragraph split yields the whole text as its only unit and every
accepted document longer than maxChunkSize is segmented by the
sentence-splitting fallback, never by paragraph packing. -/
theorem c5_no_newline_sentence_fallback (raw : List Char)
    (h10 : 10 ≤ (cleanText raw).length) (h500 : 500 < (cleanText raw).length) :
    '\n' ∉ cleanText raw ∧
    ((splitParas (cleanText raw)).filter
      (fun p => decide (0 < (jsTrim p).length))) = [cleanText raw] ∧
    createTextChunks (cleanText raw) 500 = splitBySentences (cleanText raw) 500 := by
  refine ⟨noNl_cleanText raw, ?_, createTextChunks_long raw h10 h500⟩
  rw [splitParas_noNl _ (noNl_cleanText raw), List.filter_cons]
  rw [if_pos (by rw [jsTrim_cleanText raw]; simp; omega)]
  rfl

/-- Witness for claim C5 at a 501-letter document. -/
theorem c5_no_newline_sentence_fallback_witness :
    '\n' ∉ cleanText (List.replicate 501 'a') ∧
    ((splitParas (cleanText (List.replicate 501 'a'))).filter
      (fun p => decide (0 < (jsTrim p).length))) = [cleanText (List.replicate 501 'a')] ∧
    createTextChunks (cleanText (List.replicate 501 'a')) 500 =
      splitBySentences (cleanText (List.replicate 501 'a')) 500 :=
  c5_no_newline_sentence_fallback _ (by decide) (by decide)

/-- Claim C6 evaluated at its failing input (three 300-character
paragraphs separated by blank lines, maxChunkSize 500): normalization
collapses the blank-line separators to single spaces before the newline
collapse runs, so paragraph packing never fires; the 902-character text
is sentence-joined, period-appended and hard-sliced into two chunks of
lengths 500 and 403 — not the three paragraph chunks the claim
predicts. -/
theorem c6_paragraph_scenario_eval :
    ((uploadChunks c6raw).getD []).map List.length = [500, 403] ∧
    uploadChunks c6raw ≠
      some [List.replicate 300 'a', List.replicate 300 'a', List.replicate 300 'a'] := by
  decide

/-- Claim C7 counterexample: 501 periods are accepted by upload
(normalized length 501 ≥ 10), yet segmentation returns the empty chunk
sequence — the sentence split leaves no sentences and the code has no
keep-the-last-chunk exception, so the claimed non-emptiness fails. -/
theorem c7_keep_last_cx :
    uploadChunks (List.replicate 501 '.') = some [] := by
  decide

/-- Claim C7, amended: on the multi-chunk path (normalized length above
maxChunkSize) every returned chunk passes the 20-character floor filter
and there is no keep-last exception, so the result may be empty; only
on the single-chunk path (normalized length at most maxChunkSize) is a
chunk — even one shorter than 20 characters — always returned,
unfiltered. -/
theorem c7_min_floor_filter (raw : List Char) (h10 : 10 ≤ (cleanText raw).length) :
    ((cleanText raw).length ≤ 500 → uploadChunks raw = some [cleanText raw]) ∧
    (500 < (cleanText raw).length →
      (createTextChunks (cleanText raw) 500).all
        (fun ch => decide (20 ≤ ch.length)) = true) := by
  constructor
  · intro h500
    unfold uploadChunks
    rw [if_neg (by omega), createTextChunks_small _ _ (by omega) h500]
  · intro h500
    rw [createTextChunks_long raw h10 h500, List.all_eq_true]
    intro ch hch
    rw [decide_eq_true_iff]
    exact mem_splitBySentences_ge20 ch hch

/-- Witness for the amended claim C7 at the concrete input
"hello world" (single-chunk path; the long-path implication is
vacuous there). -/
theorem c7_min_floor_filter_witness :
    ((cleanText "hello world".toList).length ≤ 500 →
      uploadChunks "hello world".toList = some [cleanText "hello world".toList]) ∧
    (500 < (cleanText "hello world".toList).length →
      (createTextChunks (cleanText "hello world".toList) 500).all
        (fun ch => decide (20 ≤ ch.length)) = true) :=
  c7_min_floor_filter _ (by decide)

/-- Claim C8 counterexample: a 200 response whose declared-JSON body
fails to parse is not classified as a `MalformedResponseFailure` — the
client falls back to the raw text body and the call resolves as a
success. -/
theorem c8_malformed_cx :
    request (.response 200 true none ['o', 'o', 'p', 's']) =
      .success (.textVal ['o', 'o', 'p', 's']) 200 ∧
    request (.response 200 true none ['o', 'o', 'p', 's']) ≠ .failure .malformed := by
  decide

/-- Claim C8, amended: every failed executor call is classified into
exactly one of the typed failures — timeout for an abort, network error
for a `TypeError`, upstream (carrying status code and body) for a
non-2xx status, unknown otherwise — and no failure is ever classified
as malformed: an unparseable body merely falls back to the raw text. -/
theorem c8_failure_classification (f : FetchBehavior) :
    request f ≠ .failure .malformed ∧
    (request f = .failure .timeout ↔ f = .abortErr) ∧
    (request f = .failure .networkError ↔ f = .typeErr) ∧
    (request f = .failure .unknown ↔ f = .otherErr) ∧
    (∀ s ct p tb, f = .response s ct p tb →
      (statusOk s → request f = .success (responseData ct p tb) s) ∧
      (¬ statusOk s → request f = .failure (.upstream s (responseData ct p tb)))) := by
  cases f with
  | abortErr => simp [request]
  | typeErr => simp [request]
  | otherErr => simp [request]
  | response s ct p tb =>
    refine ⟨?_, ?_, ?_, ?_, ?_⟩
    · by_cases hs : statusOk s <;> simp [request, hs]
    · by_cases hs : statusOk s <;> simp [request, hs]
    · by_cases hs : statusOk s <;> simp [request, hs]
    · by_cases hs : statusOk s <;> simp [request, hs]
    · intro s' ct' p' tb' heq
      injection heq with h1 h2 h3 h4
      subst h1
      subst h2
      subst h3
      subst h4
      constructor
      · intro hs
        simp [request, hs]
      · intro hs
        simp [request, hs]

/-- Witness for the amended claim C8 at a concrete 404 response. -/
theorem c8_failure_classification_witness :
    request (.response 404 true none []) =
      .failure (.upstream 404 (responseData true none [])) :=
  ((c8_failure_classification (.response 404 true none [])).2.2.2.2 404 true none []
    rfl).2 (by decide)

/-- Claim C9: when the health probe succeeds (2xx) but the
`huggingface_available` capability flag is false, the chat route
replies 503 through the misconfigured branch — a branch distinct from
both backend-unavailable branches — and makes no inference call. -/
theorem c9_misconfigured_distinct (q d : List Char) (s : Nat) (hb : HealthBody)
    (c : ChatCallOutcome) (hq : q ≠ []) (hd : d ≠ []) (hs : statusOk s)
    (hcap : hb.huggingface_available = false) :
    chatRoute q d (.response s (some hb)) c = (⟨503, .misconfigured⟩, 0) ∧
    RouteKind.misconfigured ≠ RouteKind.cannotConnect ∧
    RouteKind.misconfigured ≠ RouteKind.notAvailable := by
  have hq' : q.isEmpty = false := by
    rw [← Bool.not_eq_true, List.isEmpty_iff]
    exact hq
  have hd' : d.isEmpty = false := by
    rw [← Bool.not_eq_true, List.isEmpty_iff]
    exact hd
  refine ⟨?_, by decide, by decide⟩
  simp [chatRoute, hq', hd', hs, hcap]

/-- Witness for claim C9 at a concrete request whose health probe
returns 200 with the capability flag off. -/
theorem c9_misconfigured_distinct_witness :
    chatRoute ['q'] ['d'] (.response 200 (some ⟨false⟩)) .abortErr =
      (⟨503, .misconfigured⟩, 0) ∧
    RouteKind.misconfigured ≠ RouteKind.cannotConnect ∧
    RouteKind.misconfigured ≠ RouteKind.notAvailable :=
  c9_misconfigured_distinct _ _ _ _ _ (by decide) (by decide) (by decide) rfl

/-- Claim C10: for every raw text whose normalized form has length
between 10 and maxChunkSize = 500, the upload pipeline accepts it and
segmentation returns exactly one chunk equal to the normalized text. -/
theorem c10_single_chunk (raw : List Char) (h10 : 10 ≤ (cleanText raw).length)
    (h500 : (cleanText raw).length ≤ 500) :
    uploadChunks raw = some [cleanText raw] ∧
    createTextChunks (cleanText raw) 500 = [cleanText raw] := by
  have h1 : createTextChunks (cleanText raw) 500 = [cleanText raw] :=
    createTextChunks_small _ _ (by omega) h500
  constructor
  · unfold uploadChunks
    rw [if_neg (by omega), h1]
  · exact h1

/-- Witness for claim C10 at the concrete input "hello world". -/
theorem c10_single_chunk_witness :
    uploadChunks "hello world".toList = some [cleanText "hello world".toList] ∧
    createTextChunks (cleanText "hello world".toList) 500 =
      [cleanText "hello world".toList] :=
  c10_single_chunk _ (by decide) (by decide)
